import Mathlib

/-!
Shallow embedding of the staking / reward / challenge core of
`src/contracts/ArchiverRegistry.sol` (contract `ArchiverRegistry`).

Conventions of the embedding:
* Ethereum addresses and `bytes32` hashes are modelled as `Nat` (the core only
  stores and compares them).
* `uint256` values are modelled as `Nat`.  Solidity 0.8 uses checked
  arithmetic: subtraction that would underflow reverts, which we model with
  `sub?` returning an error; additions cannot silently wrap (a 2^256 overflow
  would revert, leaving state unchanged, and no claim here concerns overflow),
  so they are modelled by total `Nat` addition.
* Every external function becomes `State → args → Except Err State`; an
  `error` result models a revert, i.e. the pre-state is kept (see `runOp`).
* `block.timestamp` becomes an explicit `now : Nat` argument on the
  operations that read it.
* The `State` carries history fields (`registered`, `funded`, `paidOut`,
  `transfers`) that record, respectively, every operator record ever created,
  the cumulative value ever credited to the reward pool, the cumulative value
  ever paid by reward settlement, and every outbound value transfer.  They are
  write-only bookkeeping needed to state the cumulative properties of the
  spec; no operation reads them.
-/

namespace BlobArch

/-- Fixed-point scale of the reward accumulator (1e18, from the contract). -/
def SCALE : Nat := 10 ^ 18

/-- MIN_STAKE = 0.1 ether. -/
def MIN_STAKE : Nat := 10 ^ 17

/-- CHALLENGE_PERIOD = 24 hours, in seconds. -/
def CHALLENGE_PERIOD : Nat := 86400

/-- SLASH_PERCENT = 10. -/
def SLASH_PERCENT : Nat := 10

/-- CHALLENGE_BOND = 0.01 ether. -/
def CHALLENGE_BOND : Nat := 10 ^ 16

/-- Mirror of the Solidity struct `Archiver`. -/
structure Archiver where
  stake : Nat
  registeredAt : Nat
  lastClaimAt : Nat
  blobCount : Nat
  successfulChallenges : Nat
  failedChallenges : Nat
  active : Bool
  endpoint : String
deriving Repr, DecidableEq

/-- Value of a never-written mapping slot `archivers[a]`. -/
def Archiver.initial : Archiver :=
  { stake := 0, registeredAt := 0, lastClaimAt := 0, blobCount := 0
    successfulChallenges := 0, failedChallenges := 0, active := false, endpoint := "" }

/-- Mirror of the Solidity struct `Challenge`. -/
structure Challenge where
  challenger : Nat
  archiver : Nat
  blobHash : Nat
  deadline : Nat
  resolved : Bool
  archiverWon : Bool
deriving Repr, DecidableEq

/-- Value of a never-written mapping slot `challenges[id]`. -/
def Challenge.initial : Challenge :=
  { challenger := 0, archiver := 0, blobHash := 0, deadline := 0
    resolved := false, archiverWon := false }

/-- Full storage of the contract, plus the history fields described above. -/
structure State where
  archivers : Nat → Archiver
  activeArchivers : List Nat
  archiverIndex : Nat → Nat
  challenges : Nat → Challenge
  nextChallengeId : Nat
  totalStake : Nat
  rewardPool : Nat
  accRewardPerStake : Nat
  rewardDebt : Nat → Nat
  blobArchivers : Nat → List Nat
  registered : List Nat
  funded : Nat
  paidOut : Nat
  transfers : List (Nat × Nat)

/-- Storage of a freshly deployed contract. -/
def initState : State :=
  { archivers := fun _ => Archiver.initial
    activeArchivers := []
    archiverIndex := fun _ => 0
    challenges := fun _ => Challenge.initial
    nextChallengeId := 0
    totalStake := 0
    rewardPool := 0
    accRewardPerStake := 0
    rewardDebt := fun _ => 0
    blobArchivers := fun _ => []
    registered := []
    funded := 0
    paidOut := 0
    transfers := [] }

/-- The custom errors of the contract, plus `Underflow` for a checked-arithmetic revert. -/
inductive Err where
  | InsufficientStake
  | ArchiverNotActive
  | ArchiverAlreadyRegistered
  | NotAnArchiver
  | ChallengeNotFound
  | ChallengeAlreadyResolved
  | ChallengePeriodNotExpired
  | InvalidBond
  | WithdrawalExceedsStake
  | StakeBelowMinimum
  | Underflow
deriving Repr, DecidableEq

/-- Pointwise update of a mapping. -/
def upd {α : Type} (f : Nat → α) (a : Nat) (v : α) : Nat → α :=
  fun x => if x = a then v else f x

/-- Internal `_claimRewards(archiverAddr)`.  The subtraction
`accumulated - rewardDebt` is checked in Solidity 0.8: if the debt exceeds the
accumulated value the call reverts (`Underflow`). -/
def claimRewardsFor (s : State) (a : Nat) (now : Nat) : Except Err State :=
  let ar := s.archivers a
  if ar.stake = 0 then .ok s
  else
    let accumulated := ar.stake * s.accRewardPerStake / SCALE
    if s.rewardDebt a ≤ accumulated then
      let pending := accumulated - s.rewardDebt a
      if 0 < pending then
        .ok { s with
          rewardDebt := upd s.rewardDebt a accumulated
          archivers := upd s.archivers a { ar with lastClaimAt := now }
          paidOut := s.paidOut + pending
          transfers := s.transfers ++ [(a, pending)] }
      else .ok s
    else .error .Underflow

/-- External `register(endpoint)` with `msg.value = value`, `msg.sender = sender`. -/
def register (s : State) (sender value : Nat) (endpoint : String) (now : Nat) :
    Except Err State :=
  if value < MIN_STAKE then .error .InsufficientStake
  else if (s.archivers sender).registeredAt ≠ 0 then .error .ArchiverAlreadyRegistered
  else
    .ok { s with
      archivers := upd s.archivers sender
        { stake := value, registeredAt := now, lastClaimAt := now, blobCount := 0
          successfulChallenges := 0, failedChallenges := 0, active := true
          endpoint := endpoint }
      activeArchivers := s.activeArchivers ++ [sender]
      archiverIndex := upd s.archiverIndex sender (s.activeArchivers.length + 1)
      totalStake := s.totalStake + value
      rewardDebt := upd s.rewardDebt sender (value * s.accRewardPerStake / SCALE)
      registered := s.registered ++ [sender] }

/-- External `addStake()` with `msg.value = value`. -/
def addStake (s : State) (sender value now : Nat) : Except Err State :=
  if (s.archivers sender).registeredAt = 0 then .error .NotAnArchiver
  else
    match claimRewardsFor s sender now with
    | .error e => .error e
    | .ok s1 =>
      let ar := s1.archivers sender
      .ok { s1 with
        archivers := upd s1.archivers sender { ar with stake := ar.stake + value }
        totalStake := s1.totalStake + value
        rewardDebt := upd s1.rewardDebt sender
          ((ar.stake + value) * s1.accRewardPerStake / SCALE) }

/-- Internal `_deactivateArchiver(archiverAddr)`. -/
def deactivateArchiver (s : State) (a : Nat) : State :=
  let s1 := { s with archivers := upd s.archivers a { s.archivers a with active := false } }
  let index := s1.archiverIndex a
  if 0 < index then
    let lastIndex := s1.activeArchivers.length
    let s2 :=
      if index < lastIndex then
        let lastA := s1.activeArchivers.getD (lastIndex - 1) 0
        { s1 with
          activeArchivers := s1.activeArchivers.set (index - 1) lastA
          archiverIndex := upd s1.archiverIndex lastA index }
      else s1
    { s2 with
      activeArchivers := s2.activeArchivers.dropLast
      archiverIndex := upd s2.archiverIndex a 0 }
  else s1

/-- External `withdrawStake(amount)`. -/
def withdrawStake (s : State) (sender amount now : Nat) : Except Err State :=
  let ar := s.archivers sender
  if ar.registeredAt = 0 then .error .NotAnArchiver
  else if ar.stake < amount then .error .WithdrawalExceedsStake
  else
    let newStake := ar.stake - amount
    if 0 < newStake ∧ newStake < MIN_STAKE then .error .StakeBelowMinimum
    else
      match claimRewardsFor s sender now with
      | .error e => .error e
      | .ok s1 =>
        if amount ≤ s1.totalStake then
          let s2 := { s1 with
            archivers := upd s1.archivers sender { s1.archivers sender with stake := newStake }
            totalStake := s1.totalStake - amount
            rewardDebt := upd s1.rewardDebt sender (newStake * s1.accRewardPerStake / SCALE) }
          let s3 := if newStake = 0 then deactivateArchiver s2 sender else s2
          .ok { s3 with transfers := s3.transfers ++ [(sender, amount)] }
        else .error .Underflow

/-- External `deactivate()`. -/
def deactivate (s : State) (sender : Nat) : Except Err State :=
  if (s.archivers sender).active = false then .error .ArchiverNotActive
  else .ok (deactivateArchiver s sender)

/-- External `commitToBlob(blobHash)`. -/
def commitToBlob (s : State) (sender blobHash : Nat) : Except Err State :=
  let ar := s.archivers sender
  if ar.active = false then .error .ArchiverNotActive
  else
    .ok { s with
      blobArchivers := upd s.blobArchivers blobHash (s.blobArchivers blobHash ++ [sender])
      archivers := upd s.archivers sender { ar with blobCount := ar.blobCount + 1 } }

/-- External `createChallenge(archiver, blobHash)` with `msg.value = value`. -/
def createChallenge (s : State) (sender value archiver blobHash now : Nat) :
    Except Err State :=
  if value ≠ CHALLENGE_BOND then .error .InvalidBond
  else if (s.archivers archiver).active = false then .error .ArchiverNotActive
  else
    .ok { s with
      nextChallengeId := s.nextChallengeId + 1
      challenges := upd s.challenges s.nextChallengeId
        { challenger := sender, archiver := archiver, blobHash := blobHash
          deadline := now + CHALLENGE_PERIOD, resolved := false, archiverWon := false } }

/-- External `resolveChallenge(challengeId, archiverHasData)` (owner-only; the
access restriction is not part of the state transition). -/
def resolveChallenge (s : State) (id : Nat) (archiverHasData : Bool) :
    Except Err State :=
  let ch := s.challenges id
  if ch.deadline = 0 then .error .ChallengeNotFound
  else if ch.resolved then .error .ChallengeAlreadyResolved
  else
    let s1 := { s with
      challenges := upd s.challenges id
        { ch with resolved := true, archiverWon := archiverHasData } }
    let ar := s1.archivers ch.archiver
    if archiverHasData then
      .ok { s1 with
        archivers := upd s1.archivers ch.archiver
          { ar with successfulChallenges := ar.successfulChallenges + 1 }
        transfers := s1.transfers ++ [(ch.archiver, CHALLENGE_BOND)] }
    else
      let slashAmount := ar.stake * SLASH_PERCENT / 100
      if slashAmount ≤ s1.totalStake then
        let s2 := { s1 with
          archivers := upd s1.archivers ch.archiver
            { ar with
              failedChallenges := ar.failedChallenges + 1
              stake := ar.stake - slashAmount }
          totalStake := s1.totalStake - slashAmount
          transfers := s1.transfers ++ [(ch.challenger, slashAmount + CHALLENGE_BOND)] }
        .ok (if (s2.archivers ch.archiver).stake < MIN_STAKE
             then deactivateArchiver s2 ch.archiver else s2)
      else .error .Underflow

/-- External `resolveExpiredChallenge(challengeId)`. -/
def resolveExpiredChallenge (s : State) (id now : Nat) : Except Err State :=
  let ch := s.challenges id
  if ch.deadline = 0 then .error .ChallengeNotFound
  else if ch.resolved then .error .ChallengeAlreadyResolved
  else if now < ch.deadline then .error .ChallengePeriodNotExpired
  else
    let s1 := { s with
      challenges := upd s.challenges id
        { ch with resolved := true, archiverWon := false } }
    let ar := s1.archivers ch.archiver
    let slashAmount := ar.stake * SLASH_PERCENT / 100
    if slashAmount ≤ s1.totalStake then
      let s2 := { s1 with
        archivers := upd s1.archivers ch.archiver
          { ar with
            failedChallenges := ar.failedChallenges + 1
            stake := ar.stake - slashAmount }
        totalStake := s1.totalStake - slashAmount
        transfers := s1.transfers ++ [(ch.challenger, slashAmount + CHALLENGE_BOND)] }
      .ok (if (s2.archivers ch.archiver).stake < MIN_STAKE
           then deactivateArchiver s2 ch.archiver else s2)
    else .error .Underflow

/-- External `fundRewardPool()` with `msg.value = value`. -/
def fundRewardPool (s : State) (value : Nat) : Except Err State :=
  let s1 :=
    if 0 < s.totalStake then
      { s with accRewardPerStake := s.accRewardPerStake + value * SCALE / s.totalStake }
    else s
  .ok { s1 with rewardPool := s1.rewardPool + value, funded := s1.funded + value }

/-- The `receive()` fallback: identical credit path to `fundRewardPool`. -/
def receiveEth (s : State) (value : Nat) : Except Err State :=
  let s1 :=
    if 0 < s.totalStake then
      { s with accRewardPerStake := s.accRewardPerStake + value * SCALE / s.totalStake }
    else s
  .ok { s1 with rewardPool := s1.rewardPool + value, funded := s1.funded + value }

/-- External `claimRewards()`. -/
def claimRewards (s : State) (sender now : Nat) : Except Err State :=
  claimRewardsFor s sender now

/-- View `pendingRewards(archiverAddr)`; its subtraction is also checked. -/
def pendingRewards (s : State) (a : Nat) : Except Err Nat :=
  let ar := s.archivers a
  if ar.stake = 0 then .ok 0
  else
    let accumulated := ar.stake * s.accRewardPerStake / SCALE
    if s.rewardDebt a ≤ accumulated then .ok (accumulated - s.rewardDebt a)
    else .error .Underflow

/-- The operations of the core, as invoked by external callers. -/
inductive Op where
  | register (sender value : Nat) (endpoint : String) (now : Nat)
  | addStake (sender value now : Nat)
  | withdrawStake (sender amount now : Nat)
  | deactivate (sender : Nat)
  | commitToBlob (sender blobHash : Nat)
  | createChallenge (sender value archiver blobHash now : Nat)
  | resolveChallenge (id : Nat) (archiverHasData : Bool)
  | resolveExpiredChallenge (id now : Nat)
  | fundRewardPool (value : Nat)
  | receiveEth (value : Nat)
  | claimRewards (sender now : Nat)

/-- Dispatch one operation. -/
def step (s : State) : Op → Except Err State
  | .register sender value endpoint now => register s sender value endpoint now
  | .addStake sender value now => addStake s sender value now
  | .withdrawStake sender amount now => withdrawStake s sender amount now
  | .deactivate sender => deactivate s sender
  | .commitToBlob sender blobHash => commitToBlob s sender blobHash
  | .createChallenge sender value archiver blobHash now =>
      createChallenge s sender value archiver blobHash now
  | .resolveChallenge id archiverHasData => resolveChallenge s id archiverHasData
  | .resolveExpiredChallenge id now => resolveExpiredChallenge s id now
  | .fundRewardPool value => fundRewardPool s value
  | .receiveEth value => receiveEth s value
  | .claimRewards sender now => claimRewards s sender now

/-- Revert semantics: a failing operation leaves the state unchanged. -/
def runOp (s : State) (op : Op) : State :=
  match step s op with
  | .ok s1 => s1
  | .error _ => s

/-- Run a sequence of operations from a state. -/
def run (s : State) (ops : List Op) : State :=
  ops.foldl runOp s

/-- A blockchain timestamp is never zero; operations that store
`block.timestamp` into `registeredAt` carry a positive `now`. -/
def Op.goodTime : Op → Bool
  | .register _ _ _ now => 0 < now
  | _ => true

/-- All timestamps in a trace are sound. -/
def goodTrace (ops : List Op) : Bool :=
  ops.all Op.goodTime

/-! ### Basic lemmas about the embedding -/

theorem upd_same {α : Type} (f : Nat → α) (a : Nat) (v : α) : upd f a v a = v := by
  simp [upd]

theorem upd_other {α : Type} (f : Nat → α) (a b : Nat) (v : α) (h : b ≠ a) :
    upd f a v b = f b := by
  simp [upd, h]

theorem runOp_of_ok {s s1 : State} {op : Op} (h : step s op = .ok s1) :
    runOp s op = s1 := by
  simp [runOp, h]

theorem runOp_of_error {s : State} {op : Op} {e : Err} (h : step s op = .error e) :
    runOp s op = s := by
  simp [runOp, h]

/-- Everything `_claimRewards` leaves untouched, on a successful call. -/
theorem claimRewardsFor_obs {s s1 : State} {a now : Nat}
    (h : claimRewardsFor s a now = .ok s1) :
    s1.totalStake = s.totalStake ∧
    s1.accRewardPerStake = s.accRewardPerStake ∧
    s1.registered = s.registered ∧
    s1.challenges = s.challenges ∧
    s1.nextChallengeId = s.nextChallengeId ∧
    s1.funded = s.funded ∧
    s1.activeArchivers = s.activeArchivers ∧
    s1.archiverIndex = s.archiverIndex ∧
    s1.blobArchivers = s.blobArchivers ∧
    (∀ b, (s1.archivers b).stake = (s.archivers b).stake) ∧
    (∀ b, (s1.archivers b).registeredAt = (s.archivers b).registeredAt) ∧
    (∀ b, (s1.archivers b).active = (s.archivers b).active) := by
  simp only [claimRewardsFor] at h
  split_ifs at h with h0 h1 h2
  · cases h
    refine ⟨rfl, rfl, rfl, rfl, rfl, rfl, rfl, rfl, rfl, ?_, ?_, ?_⟩ <;>
      intro b <;> rfl
  · cases h
    refine ⟨rfl, rfl, rfl, rfl, rfl, rfl, rfl, rfl, rfl, ?_, ?_, ?_⟩ <;>
      intro b <;> by_cases hb : b = a <;> simp [upd, hb]
  · cases h
    refine ⟨rfl, rfl, rfl, rfl, rfl, rfl, rfl, rfl, rfl, ?_, ?_, ?_⟩ <;>
      intro b <;> rfl

/-- Everything `_deactivateArchiver` leaves untouched, and how it changes
the `active` flags. -/
theorem deactivateArchiver_obs (s : State) (a : Nat) :
    (deactivateArchiver s a).totalStake = s.totalStake ∧
    (deactivateArchiver s a).accRewardPerStake = s.accRewardPerStake ∧
    (deactivateArchiver s a).registered = s.registered ∧
    (deactivateArchiver s a).challenges = s.challenges ∧
    (deactivateArchiver s a).nextChallengeId = s.nextChallengeId ∧
    (deactivateArchiver s a).funded = s.funded ∧
    (deactivateArchiver s a).paidOut = s.paidOut ∧
    (deactivateArchiver s a).transfers = s.transfers ∧
    (deactivateArchiver s a).rewardDebt = s.rewardDebt ∧
    (deactivateArchiver s a).blobArchivers = s.blobArchivers ∧
    (∀ b, ((deactivateArchiver s a).archivers b).stake = (s.archivers b).stake) ∧
    (∀ b, ((deactivateArchiver s a).archivers b).registeredAt =
      (s.archivers b).registeredAt) ∧
    ((deactivateArchiver s a).archivers a).active = false ∧
    (∀ b, b ≠ a → (deactivateArchiver s a).archivers b = s.archivers b) := by
  simp only [deactivateArchiver]
  split_ifs <;>
    refine ⟨rfl, rfl, rfl, rfl, rfl, rfl, rfl, rfl, rfl, rfl, ?_, ?_, ?_, ?_⟩ <;>
    first
      | (intro b; by_cases hb : b = a <;> simp [upd, hb])
      | (simp [upd])
      | (intro b hb; simp [upd, hb])

/-- Inversion of a successful `register`. -/
theorem register_inv {s s1 : State} {sender v : Nat} {e : String} {now : Nat}
    (h : register s sender v e now = .ok s1) :
    MIN_STAKE ≤ v ∧ (s.archivers sender).registeredAt = 0 ∧
    s1 = { s with
      archivers := upd s.archivers sender
        { stake := v, registeredAt := now, lastClaimAt := now, blobCount := 0
          successfulChallenges := 0, failedChallenges := 0, active := true, endpoint := e }
      activeArchivers := s.activeArchivers ++ [sender]
      archiverIndex := upd s.archiverIndex sender (s.activeArchivers.length + 1)
      totalStake := s.totalStake + v
      rewardDebt := upd s.rewardDebt sender (v * s.accRewardPerStake / SCALE)
      registered := s.registered ++ [sender] } := by
  simp only [register] at h
  split_ifs at h with h0 h1
  · cases h
    exact ⟨by omega, by simpa using h1, rfl⟩

/-- Inversion of a successful `addStake`. -/
theorem addStake_inv {s s1 : State} {sender v now : Nat}
    (h : addStake s sender v now = .ok s1) :
    (s.archivers sender).registeredAt ≠ 0 ∧
    ∃ sc, claimRewardsFor s sender now = .ok sc ∧
      s1 = { sc with
        archivers := upd sc.archivers sender
          { sc.archivers sender with stake := (sc.archivers sender).stake + v }
        totalStake := sc.totalStake + v
        rewardDebt := upd sc.rewardDebt sender
          (((sc.archivers sender).stake + v) * sc.accRewardPerStake / SCALE) } := by
  simp only [addStake] at h
  split_ifs at h with h0
  rcases hc : claimRewardsFor s sender now with e | sc <;> rw [hc] at h
  · cases h
  · cases h
    exact ⟨h0, sc, rfl, rfl⟩

/-- Field-wise description of a successful `withdrawStake`. -/
theorem withdrawStake_obs {s s1 : State} {sender amount now : Nat}
    (h : withdrawStake s sender amount now = .ok s1) :
    (s.archivers sender).registeredAt ≠ 0 ∧
    amount ≤ (s.archivers sender).stake ∧
    ¬(0 < (s.archivers sender).stake - amount ∧
      (s.archivers sender).stake - amount < MIN_STAKE) ∧
    amount ≤ s.totalStake ∧
    s1.totalStake = s.totalStake - amount ∧
    (s1.archivers sender).stake = (s.archivers sender).stake - amount ∧
    (∀ b, b ≠ sender → (s1.archivers b).stake = (s.archivers b).stake) ∧
    (∀ b, (s1.archivers b).registeredAt = (s.archivers b).registeredAt) ∧
    (∀ b, (s1.archivers b).active = true → (s.archivers b).active = true) ∧
    s1.registered = s.registered ∧
    s1.accRewardPerStake = s.accRewardPerStake ∧
    s1.challenges = s.challenges ∧
    s1.nextChallengeId = s.nextChallengeId ∧
    s1.rewardDebt sender =
      ((s.archivers sender).stake - amount) * s.accRewardPerStake / SCALE ∧
    ∃ sc, claimRewardsFor s sender now = .ok sc ∧ s1.paidOut = sc.paidOut := by
  rcases hc : claimRewardsFor s sender now with e | sc <;>
    simp only [withdrawStake, hc] at h <;>
    split_ifs at h with h0 h1 h2 h3 <;>
    cases h
  case _ h4 =>
    -- full withdrawal: the operator is deactivated
    obtain ⟨hts, hacc, hreg, hch, hnx, hfu, hav, hai, hbl, hstk, hra, hact⟩ :=
      claimRewardsFor_obs hc
    obtain ⟨d1, d2, d3, d4, d5, d6, d7, d8, d9, d10, d11, d12, d13, d14⟩ :=
      deactivateArchiver_obs { sc with
        archivers := upd sc.archivers sender
          { sc.archivers sender with stake := (s.archivers sender).stake - amount }
        totalStake := sc.totalStake - amount
        rewardDebt := upd sc.rewardDebt sender
          (((s.archivers sender).stake - amount) * sc.accRewardPerStake / SCALE) } sender
    refine ⟨h0, by omega, h2, by omega, ?_, ?_, ?_, ?_, ?_, ?_, ?_, ?_, ?_, ?_,
      sc, rfl, ?_⟩
    · simpa [hts] using d1
    · simpa [upd, hstk sender] using d11 sender
    · intro b hb
      have := d11 b
      simpa [upd, hb, hstk b] using this
    · intro b
      have h7 := d12 b
      by_cases hb : b = sender
      · subst hb; simpa [upd, hra b] using h7
      · simpa [upd, hb, hra b] using h7
    · intro b hb
      by_cases hbs : b = sender
      · subst hbs; simp [d13] at hb
      · have h6 := d14 b hbs
        rw [← hact b]
        simpa [upd, hbs, h6] using hb
    · simpa [hreg] using d3
    · simpa [hacc] using d2
    · simpa [hch] using d4
    · simpa [hnx] using d5
    · rw [d9]; simp [upd, hacc]
    · exact d7
  case _ h4 =>
    -- partial withdrawal
    obtain ⟨hts, hacc, hreg, hch, hnx, hfu, hav, hai, hbl, hstk, hra, hact⟩ :=
      claimRewardsFor_obs hc
    refine ⟨h0, by omega, h2, by omega, by simp [hts], ?_, ?_, ?_, ?_,
      by simp [hreg], by simp [hacc], by simp [hch], by simp [hnx], ?_, sc, rfl, rfl⟩
    · simp [upd]
    · intro b hb; simp [upd, hb, hstk b]
    · intro b
      by_cases hb : b = sender
      · subst hb; simp [upd, hra b]
      · simp [upd, hb, hra b]
    · intro b hb
      rw [← hact b]
      by_cases hbs : b = sender <;> simpa [upd, hbs] using hb
    · simp [upd, hacc]

/-- Inversion of a successful `deactivate`. -/
theorem deactivate_inv {s s1 : State} {sender : Nat}
    (h : deactivate s sender = .ok s1) :
    (s.archivers sender).active = true ∧ s1 = deactivateArchiver s sender := by
  simp only [deactivate] at h
  split_ifs at h with h0
  cases h
  exact ⟨by revert h0; cases (s.archivers sender).active <;> simp, rfl⟩

/-- Inversion of a successful `commitToBlob`. -/
theorem commitToBlob_inv {s s1 : State} {sender bh : Nat}
    (h : commitToBlob s sender bh = .ok s1) :
    (s.archivers sender).active = true ∧
    s1 = { s with
      blobArchivers := upd s.blobArchivers bh (s.blobArchivers bh ++ [sender])
      archivers := upd s.archivers sender
        { s.archivers sender with blobCount := (s.archivers sender).blobCount + 1 } } := by
  simp only [commitToBlob] at h
  split_ifs at h with h0
  cases h
  exact ⟨by revert h0; cases (s.archivers sender).active <;> simp, rfl⟩

/-- Inversion of a successful `createChallenge`. -/
theorem createChallenge_inv {s s1 : State} {sender v archiver bh now : Nat}
    (h : createChallenge s sender v archiver bh now = .ok s1) :
    v = CHALLENGE_BOND ∧ (s.archivers archiver).active = true ∧
    s1 = { s with
      nextChallengeId := s.nextChallengeId + 1
      challenges := upd s.challenges s.nextChallengeId
        { challenger := sender, archiver := archiver, blobHash := bh
          deadline := now + CHALLENGE_PERIOD, resolved := false, archiverWon := false } } := by
  simp only [createChallenge] at h
  split_ifs at h with h0 h1
  cases h
  refine ⟨by simpa using h0, ?_, rfl⟩
  revert h1; cases (s.archivers archiver).active <;> simp

/-- Field-wise description of a successful `resolveChallenge`. -/
theorem resolveChallenge_obs {s s1 : State} {id : Nat} {hasData : Bool}
    (h : resolveChallenge s id hasData = .ok s1) :
    (s.challenges id).deadline ≠ 0 ∧ (s.challenges id).resolved = false ∧
    s1.challenges = upd s.challenges id
      { s.challenges id with resolved := true, archiverWon := hasData } ∧
    s1.nextChallengeId = s.nextChallengeId ∧
    s1.registered = s.registered ∧
    s1.accRewardPerStake = s.accRewardPerStake ∧
    s1.rewardDebt = s.rewardDebt ∧
    s1.paidOut = s.paidOut ∧
    (∀ b, (s1.archivers b).registeredAt = (s.archivers b).registeredAt) ∧
    (∀ b, (s1.archivers b).active = true → (s.archivers b).active = true) ∧
    (hasData = true →
      (∀ b, (s1.archivers b).stake = (s.archivers b).stake) ∧
      s1.totalStake = s.totalStake) ∧
    (hasData = false →
      (s.archivers (s.challenges id).archiver).stake * SLASH_PERCENT / 100 ≤
        s.totalStake ∧
      (s1.archivers (s.challenges id).archiver).stake =
        (s.archivers (s.challenges id).archiver).stake -
          (s.archivers (s.challenges id).archiver).stake * SLASH_PERCENT / 100 ∧
      (∀ b, b ≠ (s.challenges id).archiver →
        (s1.archivers b).stake = (s.archivers b).stake) ∧
      s1.totalStake = s.totalStake -
        (s.archivers (s.challenges id).archiver).stake * SLASH_PERCENT / 100) := by
  simp only [resolveChallenge] at h
  split_ifs at h with h0 h1 h2 h3 h4
  · -- archiver wins
    cases h
    refine ⟨h0, by revert h1; cases (s.challenges id).resolved <;> simp, rfl, rfl,
      rfl, rfl, rfl, rfl, ?_, ?_, ?_, by simp [h2]⟩
    · intro b; by_cases hb : b = (s.challenges id).archiver <;> simp [upd, hb]
    · intro b hb
      by_cases hbs : b = (s.challenges id).archiver <;> simpa [upd, hbs] using hb
    · intro hd
      exact ⟨fun b => by by_cases hb : b = (s.challenges id).archiver <;>
        simp [upd, hb], rfl⟩
  · -- archiver loses, remaining stake below minimum: deactivated
    cases h
    obtain ⟨d1, d2, d3, d4, d5, d6, d7, d8, d9, d10, d11, d12, d13, d14⟩ :=
      deactivateArchiver_obs { s with
        challenges := upd s.challenges id
          { s.challenges id with resolved := true, archiverWon := hasData }
        archivers := upd s.archivers (s.challenges id).archiver
          { s.archivers (s.challenges id).archiver with
            failedChallenges :=
              (s.archivers (s.challenges id).archiver).failedChallenges + 1
            stake := (s.archivers (s.challenges id).archiver).stake -
              (s.archivers (s.challenges id).archiver).stake * SLASH_PERCENT / 100 }
        totalStake := s.totalStake -
          (s.archivers (s.challenges id).archiver).stake * SLASH_PERCENT / 100
        transfers := s.transfers ++
          [((s.challenges id).challenger,
            (s.archivers (s.challenges id).archiver).stake * SLASH_PERCENT / 100 +
              CHALLENGE_BOND)] } (s.challenges id).archiver
    refine ⟨h0, by revert h1; cases (s.challenges id).resolved <;> simp,
      by simpa using d4, by simpa using d5, by simpa using d3, by simpa using d2,
      by simpa using d9, by simpa using d7, ?_, ?_, by simp [h2], ?_⟩
    · intro b
      have := d12 b
      by_cases hb : b = (s.challenges id).archiver <;> simpa [upd, hb] using this
    · intro b hb
      by_cases hbs : b = (s.challenges id).archiver
      · subst hbs; simp [d13] at hb
      · have h6 := d14 b hbs
        simpa [upd, hbs, h6] using hb
    · intro hd
      refine ⟨h3, ?_, ?_, by simpa using d1⟩
      · have := d11 (s.challenges id).archiver
        simpa [upd] using this
      · intro b hb
        have := d11 b
        simpa [upd, hb] using this
  · -- archiver loses, stays active
    cases h
    refine ⟨h0, by revert h1; cases (s.challenges id).resolved <;> simp, rfl, rfl,
      rfl, rfl, rfl, rfl, ?_, ?_, by simp [h2], ?_⟩
    · intro b; by_cases hb : b = (s.challenges id).archiver <;> simp [upd, hb]
    · intro b hb
      by_cases hbs : b = (s.challenges id).archiver <;> simpa [upd, hbs] using hb
    · intro hd
      refine ⟨h3, by simp [upd], ?_, rfl⟩
      intro b hb; simp [upd, hb]

/-- Field-wise description of a successful `resolveExpiredChallenge`. -/
theorem resolveExpiredChallenge_obs {s s1 : State} {id now : Nat}
    (h : resolveExpiredChallenge s id now = .ok s1) :
    (s.challenges id).deadline ≠ 0 ∧ (s.challenges id).resolved = false ∧
    (s.challenges id).deadline ≤ now ∧
    s1.challenges = upd s.challenges id
      { s.challenges id with resolved := true, archiverWon := false } ∧
    s1.nextChallengeId = s.nextChallengeId ∧
    s1.registered = s.registered ∧
    s1.accRewardPerStake = s.accRewardPerStake ∧
    s1.rewardDebt = s.rewardDebt ∧
    s1.paidOut = s.paidOut ∧
    (∀ b, (s1.archivers b).registeredAt = (s.archivers b).registeredAt) ∧
    (∀ b, (s1.archivers b).active = true → (s.archivers b).active = true) ∧
    (s.archivers (s.challenges id).archiver).stake * SLASH_PERCENT / 100 ≤
      s.totalStake ∧
    (s1.archivers (s.challenges id).archiver).stake =
      (s.archivers (s.challenges id).archiver).stake -
        (s.archivers (s.challenges id).archiver).stake * SLASH_PERCENT / 100 ∧
    (∀ b, b ≠ (s.challenges id).archiver →
      (s1.archivers b).stake = (s.archivers b).stake) ∧
    s1.totalStake = s.totalStake -
      (s.archivers (s.challenges id).archiver).stake * SLASH_PERCENT / 100 := by
  simp only [resolveExpiredChallenge] at h
  split_ifs at h with h0 h1 h2 h3 h4
  · -- remaining stake below minimum: deactivated
    cases h
    obtain ⟨d1, d2, d3, d4, d5, d6, d7, d8, d9, d10, d11, d12, d13, d14⟩ :=
      deactivateArchiver_obs { s with
        challenges := upd s.challenges id
          { s.challenges id with resolved := true, archiverWon := false }
        archivers := upd s.archivers (s.challenges id).archiver
          { s.archivers (s.challenges id).archiver with
            failedChallenges :=
              (s.archivers (s.challenges id).archiver).failedChallenges + 1
            stake := (s.archivers (s.challenges id).archiver).stake -
              (s.archivers (s.challenges id).archiver).stake * SLASH_PERCENT / 100 }
        totalStake := s.totalStake -
          (s.archivers (s.challenges id).archiver).stake * SLASH_PERCENT / 100
        transfers := s.transfers ++
          [((s.challenges id).challenger,
            (s.archivers (s.challenges id).archiver).stake * SLASH_PERCENT / 100 +
              CHALLENGE_BOND)] } (s.challenges id).archiver
    refine ⟨h0, by revert h1; cases (s.challenges id).resolved <;> simp, by omega,
      by simpa using d4, by simpa using d5, by simpa using d3, by simpa using d2,
      by simpa using d9, by simpa using d7, ?_, ?_, h3, ?_, ?_, by simpa using d1⟩
    · intro b
      have := d12 b
      by_cases hb : b = (s.challenges id).archiver <;> simpa [upd, hb] using this
    · intro b hb
      by_cases hbs : b = (s.challenges id).archiver
      · subst hbs; simp [d13] at hb
      · have h6 := d14 b hbs
        simpa [upd, hbs, h6] using hb
    · have := d11 (s.challenges id).archiver
      simpa [upd] using this
    · intro b hb
      have := d11 b
      simpa [upd, hb] using this
  · -- stays active
    cases h
    refine ⟨h0, by revert h1; cases (s.challenges id).resolved <;> simp, by omega,
      rfl, rfl, rfl, rfl, rfl, rfl, ?_, ?_, h3, by simp [upd], ?_, rfl⟩
    · intro b; by_cases hb : b = (s.challenges id).archiver <;> simp [upd, hb]
    · intro b hb
      by_cases hbs : b = (s.challenges id).archiver <;> simpa [upd, hbs] using hb
    · intro b hb; simp [upd, hb]

/-- A successful `_claimRewards` pays exactly the pending amount and, when the
stake is nonzero, moves `rewardDebt` to the current settlement point. -/
theorem claimRewardsFor_settles {s : State} {a p : Nat} (now : Nat)
    (hp : pendingRewards s a = .ok p) :
    ∃ sc, claimRewardsFor s a now = .ok sc ∧ sc.paidOut = s.paidOut + p ∧
      ((s.archivers a).stake ≠ 0 →
        sc.rewardDebt a = (s.archivers a).stake * s.accRewardPerStake / SCALE) := by
  simp only [pendingRewards] at hp
  simp only [claimRewardsFor]
  split_ifs with hz hle hpos
  · simp [hz] at hp
    exact ⟨s, rfl, by omega, fun hk => absurd hz hk⟩
  · simp [hz, hle] at hp
    refine ⟨_, rfl, by simp [hp], ?_⟩
    intro hk
    simp [upd]
  · simp [hz, hle] at hp
    exact ⟨s, rfl, by omega, fun hk => by omega⟩
  · simp [hz, hle] at hp

/-! ### Claim theorems -/

/-- C8: the reward accumulator `accRewardPerStake` never decreases: every core
operation applied to every state yields a state whose accumulator is at least
the old one. -/
theorem claim_C8_monotonic_accumulator (s : State) (op : Op) :
    s.accRewardPerStake ≤ (runOp s op).accRewardPerStake := by
  cases hst : step s op with
  | error e => simp [runOp_of_error hst]
  | ok s1 =>
    rw [runOp_of_ok hst]
    cases op with
    | register sender v ep t =>
      obtain ⟨-, -, h⟩ := register_inv hst
      simp [h]
    | addStake sender v t =>
      obtain ⟨-, sc, hc, h⟩ := addStake_inv hst
      have hacc := (claimRewardsFor_obs hc).2.1
      simp [h, hacc]
    | withdrawStake sender amt t =>
      obtain ⟨-, -, -, -, -, -, -, -, -, -, hacc, -, -, -, -⟩ := withdrawStake_obs hst
      exact le_of_eq hacc.symm
    | deactivate sender =>
      obtain ⟨-, h⟩ := deactivate_inv hst
      have := (deactivateArchiver_obs s sender).2.1
      simp [h, this]
    | commitToBlob sender bh =>
      obtain ⟨-, h⟩ := commitToBlob_inv hst
      simp [h]
    | createChallenge sender v arch bh t =>
      obtain ⟨-, -, h⟩ := createChallenge_inv hst
      simp [h]
    | resolveChallenge id hasData =>
      obtain ⟨-, -, -, -, -, hacc, -⟩ := resolveChallenge_obs hst
      exact le_of_eq hacc.symm
    | resolveExpiredChallenge id t =>
      obtain ⟨-, -, -, -, -, -, hacc, -⟩ := resolveExpiredChallenge_obs hst
      exact le_of_eq hacc.symm
    | fundRewardPool v =>
      simp only [step, fundRewardPool] at hst
      split_ifs at hst with h <;> cases hst <;> simp
    | receiveEth v =>
      simp only [step, receiveEth] at hst
      split_ifs at hst with h <;> cases hst <;> simp
    | claimRewards sender t =>
      have hacc := (claimRewardsFor_obs hst).2.1
      exact le_of_eq hacc.symm

/-- C4: on an unresolved challenge whose deadline has been reached,
`resolveExpiredChallenge` produces exactly the same result (state and error
behaviour) as `resolveChallenge` with `archiverHasData = false`. -/
theorem claim_C4_expiry_equivalence (s : State) (id now : Nat)
    (h1 : (s.challenges id).resolved = false)
    (h2 : (s.challenges id).deadline ≤ now) :
    resolveExpiredChallenge s id now = resolveChallenge s id false := by
  simp only [resolveExpiredChallenge, resolveChallenge]
  by_cases hd : (s.challenges id).deadline = 0
  · simp [hd]
  · simp [hd, h1, Nat.not_lt.mpr h2]

/-- Concrete state with one registered archiver (stake 0.2 ether, address 0)
and one open challenge against it (id 0, opened at time 10). -/
def c4state : State :=
  run initState
    [ .register 0 (2 * 10 ^ 17) "x" 1
    , .createChallenge 9 (10 ^ 16) 0 55 10 ]

theorem claim_C4_witness :
    (c4state.challenges 0).resolved = false ∧
    (c4state.challenges 0).deadline ≤ 90000 ∧
    resolveExpiredChallenge c4state 0 90000 = resolveChallenge c4state 0 false :=
  ⟨by decide, by decide, claim_C4_expiry_equivalence c4state 0 90000
    (by decide) (by decide)⟩

/-- C5: `withdrawStake` fails with `NotAnArchiver` for an unregistered caller,
with `WithdrawalExceedsStake` when the amount exceeds the stake, and with
`StakeBelowMinimum` when the remaining stake would be positive but below the
minimum; every failure leaves the state unchanged, and no successful
withdrawal leaves the caller with `0 < stake < MIN_STAKE`. -/
theorem claim_C5_withdraw_errors (s : State) (sender amount now : Nat) :
    ((s.archivers sender).registeredAt = 0 →
      withdrawStake s sender amount now = .error .NotAnArchiver) ∧
    ((s.archivers sender).registeredAt ≠ 0 →
      (s.archivers sender).stake < amount →
      withdrawStake s sender amount now = .error .WithdrawalExceedsStake) ∧
    ((s.archivers sender).registeredAt ≠ 0 →
      amount ≤ (s.archivers sender).stake →
      0 < (s.archivers sender).stake - amount →
      (s.archivers sender).stake - amount < MIN_STAKE →
      withdrawStake s sender amount now = .error .StakeBelowMinimum) ∧
    (∀ e, withdrawStake s sender amount now = .error e →
      runOp s (.withdrawStake sender amount now) = s) ∧
    (∀ s1, withdrawStake s sender amount now = .ok s1 →
      ¬(0 < (s1.archivers sender).stake ∧ (s1.archivers sender).stake < MIN_STAKE)) := by
  refine ⟨?_, ?_, ?_, ?_, ?_⟩
  · intro h
    simp [withdrawStake, h]
  · intro h hlt
    simp [withdrawStake, h, hlt]
  · intro h hle hpos hmin
    simp [withdrawStake, h, Nat.not_lt.mpr hle, hpos, hmin]
  · intro e he
    exact runOp_of_error he
  · intro s1 h
    obtain ⟨-, -, hguard, -, -, hstake, -⟩ := withdrawStake_obs h
    rw [hstake]
    exact hguard

/-- Concrete state with one registered archiver (stake 0.2 ether, address 0). -/
def c5state : State :=
  runOp initState (.register 0 (2 * 10 ^ 17) "x" 1)

/-- Result of a legal partial withdrawal from `c5state`. -/
def c5after : State :=
  runOp c5state (.withdrawStake 0 (10 ^ 17) 2)

theorem claim_C5_witness :
    withdrawStake initState 1 5 1 = .error .NotAnArchiver ∧
    withdrawStake c5state 0 (3 * 10 ^ 17) 1 = .error .WithdrawalExceedsStake ∧
    withdrawStake c5state 0 (15 * 10 ^ 16) 1 = .error .StakeBelowMinimum ∧
    ¬(0 < (c5after.archivers 0).stake ∧ (c5after.archivers 0).stake < MIN_STAKE) :=
  ⟨(claim_C5_withdraw_errors initState 1 5 1).1 (by decide),
   (claim_C5_withdraw_errors c5state 0 (3 * 10 ^ 17) 1).2.1 (by decide) (by decide),
   (claim_C5_withdraw_errors c5state 0 (15 * 10 ^ 16) 1).2.2.1 (by decide) (by decide)
     (by decide) (by decide),
   (claim_C5_withdraw_errors c5state 0 (10 ^ 17) 2).2.2.2.2 c5after (by rfl)⟩

/-- C10: `createChallenge` succeeds exactly when the bond is `CHALLENGE_BOND`
and the target archiver is active; a wrong bond fails first with
`InvalidBond`; the commitment index `blobArchivers` is never consulted, so the
outcome is the same for every content of that index and for every blob hash,
committed or not. -/
theorem claim_C10_challenge_no_commit_check (s : State)
    (sender value archiver bh now : Nat) (g : Nat → List Nat) :
    ((∃ s1, createChallenge s sender value archiver bh now = .ok s1) ↔
      (value = CHALLENGE_BOND ∧ (s.archivers archiver).active = true)) ∧
    (value ≠ CHALLENGE_BOND →
      createChallenge s sender value archiver bh now = .error .InvalidBond) ∧
    (createChallenge { s with blobArchivers := g } sender value archiver bh now =
      (createChallenge s sender value archiver bh now).map
        (fun s1 => { s1 with blobArchivers := g })) := by
  refine ⟨⟨?_, ?_⟩, ?_, ?_⟩
  · rintro ⟨s1, h⟩
    obtain ⟨hb, ha, -⟩ := createChallenge_inv h
    exact ⟨hb, ha⟩
  · rintro ⟨hb, ha⟩
    refine ⟨{ s with
      nextChallengeId := s.nextChallengeId + 1
      challenges := upd s.challenges s.nextChallengeId
        { challenger := sender, archiver := archiver, blobHash := bh
          deadline := now + CHALLENGE_PERIOD, resolved := false
          archiverWon := false } }, ?_⟩
    simp [createChallenge, hb, ha]
  · intro hb
    simp [createChallenge, hb]
  · simp only [createChallenge]
    split_ifs <;> rfl

theorem claim_C10_witness :
    (10 ^ 16 = CHALLENGE_BOND ∧ (c5state.archivers 0).active = true) ∧
    (∃ s1, createChallenge c5state 9 (10 ^ 16) 0 777 3 = .ok s1) :=
  ⟨⟨by decide, by decide⟩,
   (claim_C10_challenge_no_commit_check c5state 9 (10 ^ 16) 0 777 3
      c5state.blobArchivers).1.mpr ⟨by decide, by decide⟩⟩

/-- C7: with no intervening operation, a successful `claimRewards` pays out
exactly the pending amount, and an immediately repeated call returns the very
same state (so it transfers nothing and changes nothing). -/
theorem claim_C7_settlement_idempotent (s : State) (a p now1 now2 : Nat)
    (s1 : State) (hp : pendingRewards s a = .ok p)
    (h1 : claimRewards s a now1 = .ok s1) :
    s1.paidOut = s.paidOut + p ∧ claimRewards s1 a now2 = .ok s1 := by
  simp only [pendingRewards] at hp
  simp only [claimRewards, claimRewardsFor] at h1 ⊢
  split_ifs at h1 with hz hle hpos
  · -- zero stake: no-op
    simp [hz] at hp
    cases h1
    refine ⟨by omega, ?_⟩
    simp [hz]
  · -- positive pending: paid out, second call is a no-op
    simp [hz, hle] at hp
    cases h1
    refine ⟨by simp [hp], ?_⟩
    simp [upd, hz]
  · -- zero pending: no-op twice
    simp [hz, hle] at hp
    cases h1
    have h0 : (s.archivers a).stake * s.accRewardPerStake / SCALE -
        s.rewardDebt a = 0 := Nat.eq_zero_of_not_pos hpos
    refine ⟨by omega, ?_⟩
    simp [hz, hle, h0]

/-- Concrete state: one staked archiver and one funding event, so address 0
has a strictly positive pending reward. -/
def c7state : State :=
  run initState
    [ .register 0 (2 * 10 ^ 17) "x" 1
    , .fundRewardPool (10 ^ 17) ]

/-- The state after address 0 claims its pending reward in `c7state`. -/
def c7after : State :=
  runOp c7state (.claimRewards 0 5)

theorem claim_C7_witness :
    pendingRewards c7state 0 = .ok (10 ^ 17) ∧
    c7after.paidOut = c7state.paidOut + 10 ^ 17 ∧
    claimRewards c7after 0 9 = .ok c7after :=
  ⟨by rfl,
   (claim_C7_settlement_idempotent c7state 0 (10 ^ 17) 5 9 c7after
      (by rfl) (by rfl)).1,
   (claim_C7_settlement_idempotent c7state 0 (10 ^ 17) 5 9 c7after
      (by rfl) (by rfl)).2⟩

/-- C1 (amended): pending rewards are settled (paid out, with `rewardDebt`
moved to the new settlement point) before the stake mutations of `addStake`
and `withdrawStake`; the slashing in `resolveChallenge` and
`resolveExpiredChallenge` mutates stake without this settlement (see the
counterexample). -/
theorem claim_C1_settle_before_stake_change (s : State)
    (sender v amount now p : Nat) :
    (∀ s1, pendingRewards s sender = .ok p → addStake s sender v now = .ok s1 →
      s1.paidOut = s.paidOut + p ∧
      s1.rewardDebt sender =
        (s1.archivers sender).stake * s1.accRewardPerStake / SCALE) ∧
    (∀ s1, pendingRewards s sender = .ok p →
      withdrawStake s sender amount now = .ok s1 →
      s1.paidOut = s.paidOut + p ∧
      s1.rewardDebt sender =
        (s1.archivers sender).stake * s1.accRewardPerStake / SCALE) := by
  constructor
  · intro s1 hp h
    obtain ⟨-, sc, hc, hs1⟩ := addStake_inv h
    obtain ⟨sc2, hc2, hpaid, -⟩ := claimRewardsFor_settles now hp
    rw [hc] at hc2
    cases hc2
    constructor
    · rw [hs1]
      exact hpaid
    · rw [hs1]
      simp [upd]
  · intro s1 hp h
    obtain ⟨-, -, -, -, -, hstake, -, -, -, -, hacc, -, -, hdebt, sc, hc, hpaid⟩ :=
      withdrawStake_obs h
    obtain ⟨sc2, hc2, hpaid2, -⟩ := claimRewardsFor_settles now hp
    rw [hc] at hc2
    cases hc2
    exact ⟨by rw [hpaid, hpaid2], by rw [hdebt, hstake, hacc]⟩

/-- Concrete state: archiver 0 stakes 0.1 ether, a funder credits 0.1 ether
(all of which is pending for archiver 0), and a challenge is opened
against archiver 0. -/
def c1state : State :=
  run initState
    [ .register 0 (10 ^ 17) "x" 1
    , .fundRewardPool (10 ^ 17)
    , .createChallenge 9 (10 ^ 16) 0 55 1 ]

/-- The same state after the owner resolves the challenge against the
archiver (`archiverHasData = false`). -/
def c1after : State :=
  runOp c1state (.resolveChallenge 0 false)

/-- C1 is false on the code: resolving a challenge against an archiver
slashes its stake while paying out nothing and leaving `rewardDebt`
untouched, so the 0.1 ether that was pending before the slash shrinks to
0.09 ether — the settlement required by the claim never happens. -/
theorem claim_C1_counterexample :
    pendingRewards c1state 0 = .ok (10 ^ 17) ∧
    (c1state.archivers 0).stake = 10 ^ 17 ∧
    (c1after.archivers 0).stake = 9 * 10 ^ 16 ∧
    c1after.rewardDebt 0 = c1state.rewardDebt 0 ∧
    c1after.paidOut = c1state.paidOut ∧
    pendingRewards c1after 0 = .ok (9 * 10 ^ 16) :=
  ⟨by rfl, by rfl, by rfl, by rfl, by rfl, by rfl⟩

/-- The state after archiver 0 adds stake in `c1state`: the 0.1 ether pending
amount is settled first. -/
def c1topped : State :=
  runOp c1state (.addStake 0 (10 ^ 16) 2)

theorem claim_C1_witness :
    pendingRewards c1state 0 = .ok (10 ^ 17) ∧
    addStake c1state 0 (10 ^ 16) 2 = .ok c1topped ∧
    c1topped.paidOut = c1state.paidOut + 10 ^ 17 ∧
    c1topped.rewardDebt 0 =
      (c1topped.archivers 0).stake * c1topped.accRewardPerStake / SCALE :=
  ⟨by rfl, by rfl,
   ((claim_C1_settle_before_stake_change c1state 0 (10 ^ 16) 0 2 (10 ^ 17)).1
      c1topped (by rfl) (by rfl)).1,
   ((claim_C1_settle_before_stake_change c1state 0 (10 ^ 16) 0 2 (10 ^ 17)).1
      c1topped (by rfl) (by rfl)).2⟩

/-- Per-operation step for C9: an inactive but registered archiver stays
inactive and registered under every operation. -/
theorem inactive_stable (s : State) (op : Op) (a : Nat)
    (h1 : (s.archivers a).active = false)
    (h2 : (s.archivers a).registeredAt ≠ 0) :
    ((runOp s op).archivers a).active = false ∧
    ((runOp s op).archivers a).registeredAt ≠ 0 := by
  have bool_of : ∀ b : Bool, (b = true → False) → b = false := by decide
  cases hst : step s op with
  | error e => simp [runOp_of_error hst, h1, h2]
  | ok s1 =>
    rw [runOp_of_ok hst]
    cases op with
    | register sender v ep t =>
      obtain ⟨-, hz, h⟩ := register_inv hst
      have hne : sender ≠ a := by
        intro heq; rw [heq] at hz; exact h2 hz
      have hne2 : a ≠ sender := fun heq => hne heq.symm
      simp [h, upd, hne2, h1, h2]
    | addStake sender v t =>
      obtain ⟨-, sc, hc, h⟩ := addStake_inv hst
      obtain ⟨-, -, -, -, -, -, -, -, -, -, hra, hact⟩ := claimRewardsFor_obs hc
      by_cases hb : a = sender
      · subst hb
        simp [h, upd, hact a, hra a, h1, h2]
      · simp [h, upd, hb, hact a, hra a, h1, h2]
    | withdrawStake sender amt t =>
      obtain ⟨-, -, -, -, -, -, -, hra, hact, -⟩ := withdrawStake_obs hst
      refine ⟨bool_of _ (fun ht => ?_), by rw [hra a]; exact h2⟩
      rw [hact a ht] at h1
      cases h1
    | deactivate sender =>
      obtain ⟨-, h⟩ := deactivate_inv hst
      obtain ⟨-, -, -, -, -, -, -, -, -, -, -, d12, d13, d14⟩ :=
        deactivateArchiver_obs s sender
      subst h
      by_cases hb : a = sender
      · subst hb
        exact ⟨d13, by rw [d12 a]; exact h2⟩
      · rw [d14 a hb]
        exact ⟨h1, h2⟩
    | commitToBlob sender bh =>
      obtain ⟨-, h⟩ := commitToBlob_inv hst
      by_cases hb : a = sender
      · subst hb; simp [h, upd, h1, h2]
      · simp [h, upd, hb, h1, h2]
    | createChallenge sender v arch bh t =>
      obtain ⟨-, -, h⟩ := createChallenge_inv hst
      simp [h, h1, h2]
    | resolveChallenge id hasData =>
      obtain ⟨-, -, -, -, -, -, -, -, hra, hact, -⟩ := resolveChallenge_obs hst
      refine ⟨bool_of _ (fun ht => ?_), by rw [hra a]; exact h2⟩
      rw [hact a ht] at h1
      cases h1
    | resolveExpiredChallenge id t =>
      obtain ⟨-, -, -, -, -, -, -, -, -, hra, hact, -⟩ :=
        resolveExpiredChallenge_obs hst
      refine ⟨bool_of _ (fun ht => ?_), by rw [hra a]; exact h2⟩
      rw [hact a ht] at h1
      cases h1
    | fundRewardPool v =>
      simp only [step, fundRewardPool] at hst
      split_ifs at hst <;> cases hst <;> simp [h1, h2]
    | receiveEth v =>
      simp only [step, receiveEth] at hst
      split_ifs at hst <;> cases hst <;> simp [h1, h2]
    | claimRewards sender t =>
      obtain ⟨-, -, -, -, -, -, -, -, -, -, hra, hact⟩ := claimRewardsFor_obs hst
      rw [hact a, hra a]
      exact ⟨h1, h2⟩

/-- C9 (amended): a deactivated operator is never reactivated: whatever
operations follow (in particular any `addStake` top-ups), it stays inactive
and every later `commitToBlob` from it fails with `ArchiverNotActive`. -/
theorem claim_C9_no_reactivation (s : State) (a : Nat)
    (h1 : (s.archivers a).active = false)
    (h2 : (s.archivers a).registeredAt ≠ 0) (ops : List Op) :
    ((run s ops).archivers a).active = false ∧
    ((run s ops).archivers a).registeredAt ≠ 0 ∧
    ∀ bh, commitToBlob (run s ops) a bh = .error .ArchiverNotActive := by
  induction ops generalizing s with
  | nil =>
    exact ⟨h1, h2, fun bh => by simp [run, commitToBlob, h1]⟩
  | cons op ops ih =>
    obtain ⟨g1, g2⟩ := inactive_stable s op a h1 h2
    exact ih (runOp s op) g1 g2

/-- Concrete trace: archiver 0 registers with `MIN_STAKE`, loses a challenge
(slashing it to 0.09 ether and deactivating it), then tops its stake back up
to exactly `MIN_STAKE` with `addStake`. -/
def c9state : State :=
  run initState
    [ .register 0 (10 ^ 17) "x" 1
    , .createChallenge 9 (10 ^ 16) 0 55 1
    , .resolveChallenge 0 false
    , .addStake 0 (10 ^ 16) 2 ]

/-- C9 is false on the code: after topping its stake back up to `MIN_STAKE`,
the slashed-and-deactivated archiver is still inactive and its next commit
fails with `ArchiverNotActive` — no operation of the contract reactivates
it. -/
theorem claim_C9_counterexample :
    (c9state.archivers 0).stake = 10 ^ 17 ∧
    MIN_STAKE ≤ (c9state.archivers 0).stake ∧
    (c9state.archivers 0).active = false ∧
    commitToBlob c9state 0 55 = .error .ArchiverNotActive :=
  ⟨by rfl, by decide, by rfl, by rfl⟩

/-- The C9 witness instantiates the amended theorem on the counterexample
trace: from the slashed-and-deactivated state, the later `addStake` never
reactivates the archiver. -/
def c9mid : State :=
  run initState
    [ .register 0 (10 ^ 17) "x" 1
    , .createChallenge 9 (10 ^ 16) 0 55 1
    , .resolveChallenge 0 false ]

theorem claim_C9_witness :
    (c9mid.archivers 0).active = false ∧
    (c9mid.archivers 0).registeredAt ≠ 0 ∧
    ((run c9mid [.addStake 0 (10 ^ 16) 2]).archivers 0).active = false ∧
    commitToBlob (run c9mid [.addStake 0 (10 ^ 16) 2]) 0 55 =
      .error .ArchiverNotActive :=
  ⟨by rfl, by decide,
   (claim_C9_no_reactivation c9mid 0 (by rfl) (by decide)
      [.addStake 0 (10 ^ 16) 2]).1,
   (claim_C9_no_reactivation c9mid 0 (by rfl) (by decide)
      [.addStake 0 (10 ^ 16) 2]).2.2 55⟩

/-- The trace that refutes C3: archiver 0 stakes 0.2 ether and is paid 1 wei
out of a 1 wei funding; then archivers 1 and 2 register at the stale
accumulator (their `rewardDebt` rounds down to 0), a second 1 wei funding
arrives, and each claims 1 wei.  3 wei of rewards are paid while only 2 wei
were ever funded. -/
def c3trace : List Op :=
  [ .register 0 (2 * 10 ^ 17) "x" 1
  , .fundRewardPool 1
  , .withdrawStake 0 (2 * 10 ^ 17) 1
  , .register 1 (10 ^ 17) "x" 1
  , .register 2 (10 ^ 17) "x" 1
  , .fundRewardPool 1
  , .claimRewards 1 1
  , .claimRewards 2 1 ]

/-- C3 fails on the code: after `c3trace` the cumulative reward payouts are
3 wei although only 2 wei were ever credited via `fundRewardPool` — the
floor-rounded `rewardDebt` initialisation at registration manufactures a wei
out of the staked funds. -/
theorem claim_C3_code_bug :
    goodTrace c3trace = true ∧
    (run initState c3trace).funded = 2 ∧
    (run initState c3trace).paidOut = 3 ∧
    (run initState c3trace).transfers =
      [(0, 1), (0, 2 * 10 ^ 17), (1, 1), (2, 1)] :=
  ⟨by rfl, by rfl, by rfl, by rfl⟩

/-! ### Conservation of `totalStake` (C2) -/

/-- Sum of the stakes of a list of identities under an archiver map. -/
def stakeSum (l : List Nat) (f : Nat → Archiver) : Nat :=
  (l.map (fun x => (f x).stake)).sum

/-- Sum of the `stake` fields of every operator record ever created. -/
def sumStakes (s : State) : Nat :=
  stakeSum s.registered s.archivers

theorem stakeSum_cons (b : Nat) (l : List Nat) (f : Nat → Archiver) :
    stakeSum (b :: l) f = (f b).stake + stakeSum l f := by
  simp [stakeSum]

theorem stakeSum_append (l1 l2 : List Nat) (f : Nat → Archiver) :
    stakeSum (l1 ++ l2) f = stakeSum l1 f + stakeSum l2 f := by
  simp [stakeSum]

theorem stakeSum_congr {l : List Nat} {f g : Nat → Archiver}
    (h : ∀ b ∈ l, (g b).stake = (f b).stake) :
    stakeSum l g = stakeSum l f := by
  induction l with
  | nil => rfl
  | cons b t ih =>
    rw [stakeSum_cons, stakeSum_cons, h b (by simp),
      ih (fun x hx => h x (by simp [hx]))]

/-- Changing an archiver map at a single member of a duplicate-free list
shifts the stake sum by exactly the change at that member. -/
theorem stakeSum_ext {l : List Nat} {f g : Nat → Archiver} {a : Nat}
    (hnd : l.Nodup) (ha : a ∈ l)
    (hothers : ∀ b, b ≠ a → (g b).stake = (f b).stake) :
    stakeSum l g + (f a).stake = stakeSum l f + (g a).stake := by
  induction l with
  | nil => cases ha
  | cons b t ih =>
    obtain ⟨hbt, hndt⟩ := List.nodup_cons.mp hnd
    rw [stakeSum_cons, stakeSum_cons]
    rcases List.mem_cons.mp ha with hab | hat
    · subst hab
      have : stakeSum t g = stakeSum t f :=
        stakeSum_congr (fun x hx => hothers x (fun hxa => hbt (hxa ▸ hx)))
      omega
    · have hba : b ≠ a := fun hba => hbt (hba ▸ hat)
      have := ih hndt hat
      rw [hothers b hba]
      omega

theorem le_stakeSum {l : List Nat} {f : Nat → Archiver} {a : Nat} (ha : a ∈ l) :
    (f a).stake ≤ stakeSum l f := by
  induction l with
  | nil => cases ha
  | cons b t ih =>
    rw [stakeSum_cons]
    rcases List.mem_cons.mp ha with hab | hat
    · subst hab; omega
    · have := ih hat; omega

/-- The inductive invariant behind conservation: `totalStake` is the stake sum
over the records ever created, the creation list is duplicate-free and
characterised by `registeredAt`, and identities without a record hold no
stake and are inactive. -/
structure Inv (s : State) : Prop where
  conserve : s.totalStake = sumStakes s
  nodup : s.registered.Nodup
  memReg : ∀ a, a ∈ s.registered ↔ (s.archivers a).registeredAt ≠ 0
  unreg : ∀ a, a ∉ s.registered →
    (s.archivers a).stake = 0 ∧ (s.archivers a).active = false

theorem inv_initState : Inv initState := by
  refine ⟨rfl, List.nodup_nil, ?_, ?_⟩
  · intro a
    simp [initState, Archiver.initial]
  · intro a ha
    simp [initState, Archiver.initial]

/-- The invariant only depends on `totalStake`, `registered`, the stakes, the
registration timestamps, and (contravariantly) the active flags. -/
theorem inv_congr {s s1 : State} (h : Inv s)
    (ht : s1.totalStake = s.totalStake)
    (hr : s1.registered = s.registered)
    (hs : ∀ b, (s1.archivers b).stake = (s.archivers b).stake)
    (hra : ∀ b, (s1.archivers b).registeredAt = (s.archivers b).registeredAt)
    (hact : ∀ b, (s1.archivers b).active = true → (s.archivers b).active = true) :
    Inv s1 := by
  refine ⟨?_, ?_, ?_, ?_⟩
  · rw [ht, h.conserve]
    unfold sumStakes
    rw [hr, stakeSum_congr (fun b _ => hs b)]
  · rw [hr]; exact h.nodup
  · intro a; rw [hr, hra a]; exact h.memReg a
  · intro a ha
    rw [hr] at ha
    obtain ⟨u1, u2⟩ := h.unreg a ha
    refine ⟨by rw [hs a]; exact u1, ?_⟩
    cases hb : (s1.archivers a).active
    · rfl
    · rw [hact a hb] at u2; cases u2

/-- `_claimRewards` preserves the invariant. -/
theorem inv_claimRewardsFor {s sc : State} {a now : Nat} (h : Inv s)
    (hc : claimRewardsFor s a now = .ok sc) : Inv sc := by
  obtain ⟨hts, -, hreg, -, -, -, -, -, -, hstk, hra, hact⟩ := claimRewardsFor_obs hc
  exact inv_congr h hts hreg hstk hra (fun b hb => by rw [← hact b]; exact hb)

theorem slashAmount_le (st : Nat) : st * SLASH_PERCENT / 100 ≤ st := by
  have h1 : st * SLASH_PERCENT ≤ st * 100 := by
    unfold SLASH_PERCENT
    exact Nat.mul_le_mul_left st (by norm_num)
  calc st * SLASH_PERCENT / 100 ≤ st * 100 / 100 := Nat.div_le_div_right h1
    _ = st := Nat.mul_div_cancel st (by norm_num)

/-- Every operation with a sound timestamp preserves the conservation
invariant. -/
theorem inv_runOp (s : State) (op : Op) (hg : op.goodTime = true) (h : Inv s) :
    Inv (runOp s op) := by
  cases hst : step s op with
  | error e => rw [runOp_of_error hst]; exact h
  | ok s1 =>
    rw [runOp_of_ok hst]
    cases op with
    | register sender v ep t =>
      obtain ⟨-, hz, hs1⟩ := register_inv hst
      have ht : t ≠ 0 := by
        simp [Op.goodTime] at hg
        omega
      have hnm : sender ∉ s.registered := fun hm => (h.memReg sender).mp hm hz
      subst hs1
      refine ⟨?_, ?_, ?_, ?_⟩
      · show s.totalStake + v = sumStakes _
        unfold sumStakes
        dsimp only
        rw [stakeSum_append,
          stakeSum_congr (fun b hb =>
            congrArg Archiver.stake
              (upd_other s.archivers sender b _ (fun hbs => hnm (hbs ▸ hb))))]
        simp [stakeSum, upd, h.conserve, sumStakes]
      · dsimp only
        refine h.nodup.append (List.nodup_singleton sender) ?_
        intro x hx hx2
        simp at hx2
        subst hx2
        exact hnm hx
      · intro b
        dsimp only
        by_cases hb : b = sender
        · subst hb
          simp [upd, ht]
        · simp [upd, hb, h.memReg b]
      · intro b hb
        dsimp only at hb ⊢
        simp only [List.mem_append, List.mem_singleton] at hb
        push_neg at hb
        simp [upd, hb.2, h.unreg b hb.1]
    | addStake sender v t =>
      obtain ⟨h0, sc, hc, hs1⟩ := addStake_inv hst
      have hinv : Inv sc := inv_claimRewardsFor h hc
      obtain ⟨-, -, -, -, -, -, -, -, -, -, hra, -⟩ := claimRewardsFor_obs hc
      have hmem : sender ∈ sc.registered :=
        (hinv.memReg sender).mpr (by rw [hra sender]; exact h0)
      subst hs1
      refine ⟨?_, hinv.nodup, ?_, ?_⟩
      · show sc.totalStake + v = sumStakes _
        unfold sumStakes
        dsimp only
        have hext := stakeSum_ext (g := upd sc.archivers sender
          { sc.archivers sender with stake := (sc.archivers sender).stake + v })
          hinv.nodup hmem
          (fun b hb => by rw [upd_other sc.archivers sender b _ hb])
        rw [upd_same] at hext
        have := hinv.conserve
        unfold sumStakes at this
        dsimp only at hext
        omega
      · intro b
        dsimp only
        by_cases hb : b = sender
        · subst hb
          simp [upd, hinv.memReg b]
        · simp [upd, hb, hinv.memReg b]
      · intro b hb
        dsimp only at hb ⊢
        have hbs : b ≠ sender := fun hbs => (hbs ▸ hb) hmem
        simp [upd, hbs, hinv.unreg b hb]
    | withdrawStake sender amt t =>
      obtain ⟨h0, hle, -, hta, hts, hstk, hstko, hra, hact, hreg, -, -, -, -, -⟩ :=
        withdrawStake_obs hst
      have hmem : sender ∈ s.registered := (h.memReg sender).mpr h0
      refine ⟨?_, by rw [hreg]; exact h.nodup, ?_, ?_⟩
      · unfold sumStakes
        rw [hreg]
        have hext := stakeSum_ext (g := s1.archivers) h.nodup hmem hstko
        have hc := h.conserve
        unfold sumStakes at hc
        have hls := le_stakeSum (f := s.archivers) hmem
        omega
      · intro b
        rw [hreg, hra b]
        exact h.memReg b
      · intro b hb
        rw [hreg] at hb
        have hbs : b ≠ sender := fun hbs => (hbs ▸ hb) hmem
        obtain ⟨u1, u2⟩ := h.unreg b hb
        refine ⟨by rw [hstko b hbs]; exact u1, ?_⟩
        cases hb2 : (s1.archivers b).active
        · rfl
        · rw [hact b hb2] at u2; cases u2
    | deactivate sender =>
      obtain ⟨-, hs1⟩ := deactivate_inv hst
      obtain ⟨d1, -, d3, -, -, -, -, -, -, -, d11, d12, d13, d14⟩ :=
        deactivateArchiver_obs s sender
      subst hs1
      refine inv_congr h d1 d3 d11 d12 ?_
      intro b hb
      by_cases hbs : b = sender
      · subst hbs; rw [d13] at hb; cases hb
      · rw [d14 b hbs] at hb; exact hb
    | commitToBlob sender bh =>
      obtain ⟨-, hs1⟩ := commitToBlob_inv hst
      subst hs1
      refine inv_congr h rfl rfl ?_ ?_ ?_
      · intro b
        by_cases hb : b = sender <;> simp [upd, hb]
      · intro b
        by_cases hb : b = sender <;> simp [upd, hb]
      · intro b hb
        by_cases hbs : b = sender <;> simpa [upd, hbs] using hb
    | createChallenge sender v arch bh t =>
      obtain ⟨-, -, hs1⟩ := createChallenge_inv hst
      subst hs1
      exact inv_congr h rfl rfl (fun b => rfl) (fun b => rfl) (fun b hb => hb)
    | resolveChallenge id hasData =>
      obtain ⟨-, -, -, -, hreg, -, -, -, hra, hact, htrue, hfalse⟩ :=
        resolveChallenge_obs hst
      cases hasData with
      | true =>
        obtain ⟨hstk, hts⟩ := htrue rfl
        exact inv_congr h hts hreg hstk hra hact
      | false =>
        obtain ⟨-, hstkA, hstko, hts⟩ := hfalse rfl
        by_cases hA0 : (s.archivers (s.challenges id).archiver).registeredAt = 0
        · -- the slashed identity was never registered: its stake is 0
          have hnm : (s.challenges id).archiver ∉ s.registered :=
            fun hm => (h.memReg _).mp hm hA0
          obtain ⟨u1, -⟩ := h.unreg _ hnm
          have hz : (s.archivers (s.challenges id).archiver).stake *
              SLASH_PERCENT / 100 = 0 := by rw [u1]; simp
          refine inv_congr h (by rw [hts, hz]; omega) hreg ?_ hra hact
          intro b
          by_cases hb : b = (s.challenges id).archiver
          · subst hb; rw [hstkA]; omega
          · exact hstko b hb
        · have hmem : (s.challenges id).archiver ∈ s.registered :=
            (h.memReg _).mpr hA0
          refine ⟨?_, by rw [hreg]; exact h.nodup, ?_, ?_⟩
          · unfold sumStakes
            rw [hreg]
            have hext := stakeSum_ext (g := s1.archivers) h.nodup hmem hstko
            have hc := h.conserve
            unfold sumStakes at hc
            have hls := le_stakeSum (f := s.archivers) hmem
            have hsl := slashAmount_le (s.archivers (s.challenges id).archiver).stake
            omega
          · intro b
            rw [hreg, hra b]
            exact h.memReg b
          · intro b hb
            rw [hreg] at hb
            have hbs : b ≠ (s.challenges id).archiver :=
              fun hbs => (hbs ▸ hb) hmem
            obtain ⟨u1, u2⟩ := h.unreg b hb
            refine ⟨by rw [hstko b hbs]; exact u1, ?_⟩
            cases hb2 : (s1.archivers b).active
            · rfl
            · rw [hact b hb2] at u2; cases u2
    | resolveExpiredChallenge id t =>
      obtain ⟨-, -, -, -, -, hreg, -, -, -, hra, hact, -, hstkA, hstko, hts⟩ :=
        resolveExpiredChallenge_obs hst
      by_cases hA0 : (s.archivers (s.challenges id).archiver).registeredAt = 0
      · have hnm : (s.challenges id).archiver ∉ s.registered :=
          fun hm => (h.memReg _).mp hm hA0
        obtain ⟨u1, -⟩ := h.unreg _ hnm
        have hz : (s.archivers (s.challenges id).archiver).stake *
            SLASH_PERCENT / 100 = 0 := by rw [u1]; simp
        refine inv_congr h (by rw [hts, hz]; omega) hreg ?_ hra hact
        intro b
        by_cases hb : b = (s.challenges id).archiver
        · subst hb; rw [hstkA]; omega
        · exact hstko b hb
      · have hmem : (s.challenges id).archiver ∈ s.registered :=
          (h.memReg _).mpr hA0
        refine ⟨?_, by rw [hreg]; exact h.nodup, ?_, ?_⟩
        · unfold sumStakes
          rw [hreg]
          have hext := stakeSum_ext (g := s1.archivers) h.nodup hmem hstko
          have hc := h.conserve
          unfold sumStakes at hc
          have hls := le_stakeSum (f := s.archivers) hmem
          have hsl := slashAmount_le (s.archivers (s.challenges id).archiver).stake
          omega
        · intro b
          rw [hreg, hra b]
          exact h.memReg b
        · intro b hb
          rw [hreg] at hb
          have hbs : b ≠ (s.challenges id).archiver :=
            fun hbs => (hbs ▸ hb) hmem
          obtain ⟨u1, u2⟩ := h.unreg b hb
          refine ⟨by rw [hstko b hbs]; exact u1, ?_⟩
          cases hb2 : (s1.archivers b).active
          · rfl
          · rw [hact b hb2] at u2; cases u2
    | fundRewardPool v =>
      simp only [step, fundRewardPool] at hst
      split_ifs at hst <;> cases hst <;>
        exact inv_congr h rfl rfl (fun b => rfl) (fun b => rfl) (fun b hb => hb)
    | receiveEth v =>
      simp only [step, receiveEth] at hst
      split_ifs at hst <;> cases hst <;>
        exact inv_congr h rfl rfl (fun b => rfl) (fun b => rfl) (fun b hb => hb)
    | claimRewards sender t =>
      exact inv_claimRewardsFor h hst

/-- The invariant holds along every well-timed trace. -/
theorem inv_run (s : State) (ops : List Op) (h : Inv s)
    (hg : goodTrace ops = true) : Inv (run s ops) := by
  induction ops generalizing s with
  | nil => exact h
  | cons op t ih =>
    have hg2 : op.goodTime = true ∧ goodTrace t = true := by
      simpa [goodTrace] using hg
    exact ih (runOp s op) (inv_runOp s op hg2.1 h) hg2.2

/-- C2: along every sequence of core operations with sound (nonzero)
block timestamps, `totalStake` always equals the sum of the `stake` fields of
every operator record ever created. -/
theorem claim_C2_conservation (ops : List Op) (hg : goodTrace ops = true) :
    (run initState ops).totalStake = sumStakes (run initState ops) :=
  (inv_run initState ops inv_initState hg).conserve

/-- A mixed trace exercising registration, funding, a slash, a withdrawal and
a claim. -/
def c2trace : List Op :=
  [ .register 0 (2 * 10 ^ 17) "x" 1
  , .register 1 (10 ^ 17) "y" 2
  , .fundRewardPool 5
  , .createChallenge 9 (10 ^ 16) 0 77 2
  , .resolveChallenge 0 false
  , .withdrawStake 1 (10 ^ 17) 3
  , .claimRewards 0 4 ]

theorem claim_C2_witness :
    goodTrace c2trace = true ∧
    (run initState c2trace).totalStake = sumStakes (run initState c2trace) :=
  ⟨by rfl, claim_C2_conservation c2trace (by rfl)⟩

/-! ### Challenge terminality (C6) -/

/-- Invariant for the challenge store: slots at or beyond `nextChallengeId`
are untouched, and a resolved challenge has a nonzero deadline. -/
structure InvC (s : State) : Prop where
  fresh : ∀ i, s.nextChallengeId ≤ i → s.challenges i = Challenge.initial
  resDead : ∀ i, (s.challenges i).resolved = true → (s.challenges i).deadline ≠ 0

theorem invC_initState : InvC initState := by
  refine ⟨fun i _ => rfl, fun i hi => ?_⟩
  simp [initState, Challenge.initial] at hi

/-- How one operation can change a challenge slot: not at all; by resolving a
previously unresolved challenge with nonzero deadline; or by creating a fresh
(unresolved, nonzero-deadline) challenge at slot `nextChallengeId`. -/
theorem chal_cases (s : State) (op : Op) :
    s.nextChallengeId ≤ (runOp s op).nextChallengeId ∧
    ∀ i, ((runOp s op).challenges i = s.challenges i) ∨
      ((s.challenges i).resolved = false ∧ (s.challenges i).deadline ≠ 0 ∧
        ((runOp s op).challenges i).resolved = true ∧
        ((runOp s op).challenges i).deadline ≠ 0) ∨
      (i = s.nextChallengeId ∧
        (runOp s op).nextChallengeId = s.nextChallengeId + 1 ∧
        ((runOp s op).challenges i).resolved = false ∧
        ((runOp s op).challenges i).deadline ≠ 0) := by
  cases hst : step s op with
  | error e => simp [runOp_of_error hst]
  | ok s1 =>
    rw [runOp_of_ok hst]
    cases op with
    | register sender v ep t =>
      obtain ⟨-, -, hs1⟩ := register_inv hst
      subst hs1
      exact ⟨le_refl _, fun i => Or.inl rfl⟩
    | addStake sender v t =>
      obtain ⟨-, sc, hc, hs1⟩ := addStake_inv hst
      obtain ⟨-, -, -, hch, hnx, -⟩ := claimRewardsFor_obs hc
      subst hs1
      exact ⟨le_of_eq hnx.symm, fun i => Or.inl (congrFun hch i)⟩
    | withdrawStake sender amt t =>
      obtain ⟨-, -, -, -, -, -, -, -, -, -, -, hch, hnx, -⟩ := withdrawStake_obs hst
      exact ⟨le_of_eq hnx.symm, fun i => Or.inl (congrFun hch i)⟩
    | deactivate sender =>
      obtain ⟨-, hs1⟩ := deactivate_inv hst
      obtain ⟨-, -, -, d4, d5, -⟩ := deactivateArchiver_obs s sender
      subst hs1
      exact ⟨le_of_eq d5.symm, fun i => Or.inl (congrFun d4 i)⟩
    | commitToBlob sender bh =>
      obtain ⟨-, hs1⟩ := commitToBlob_inv hst
      subst hs1
      exact ⟨le_refl _, fun i => Or.inl rfl⟩
    | createChallenge sender v arch bh t =>
      obtain ⟨-, -, hs1⟩ := createChallenge_inv hst
      subst hs1
      refine ⟨by dsimp only; omega, fun i => ?_⟩
      by_cases hi : i = s.nextChallengeId
      · subst hi
        refine Or.inr (Or.inr ⟨rfl, rfl, ?_, ?_⟩)
        · dsimp only
          rw [upd_same]
        · dsimp only
          rw [upd_same]
          show t + CHALLENGE_PERIOD ≠ 0
          unfold CHALLENGE_PERIOD
          omega
      · exact Or.inl (upd_other s.challenges s.nextChallengeId i _ hi)
    | resolveChallenge id hasData =>
      obtain ⟨hd, hres, hch, hnx, -⟩ := resolveChallenge_obs hst
      refine ⟨le_of_eq hnx.symm, fun i => ?_⟩
      by_cases hi : i = id
      · subst hi
        refine Or.inr (Or.inl ⟨hres, hd, ?_, ?_⟩)
        · rw [hch, upd_same]
        · rw [hch, upd_same]
          exact hd
      · exact Or.inl (by rw [hch, upd_other s.challenges id i _ hi])
    | resolveExpiredChallenge id t =>
      obtain ⟨hd, hres, -, hch, hnx, -⟩ := resolveExpiredChallenge_obs hst
      refine ⟨le_of_eq hnx.symm, fun i => ?_⟩
      by_cases hi : i = id
      · subst hi
        refine Or.inr (Or.inl ⟨hres, hd, ?_, ?_⟩)
        · rw [hch, upd_same]
        · rw [hch, upd_same]
          exact hd
      · exact Or.inl (by rw [hch, upd_other s.challenges id i _ hi])
    | fundRewardPool v =>
      simp only [step, fundRewardPool] at hst
      split_ifs at hst <;> cases hst <;> exact ⟨le_refl _, fun i => Or.inl rfl⟩
    | receiveEth v =>
      simp only [step, receiveEth] at hst
      split_ifs at hst <;> cases hst <;> exact ⟨le_refl _, fun i => Or.inl rfl⟩
    | claimRewards sender t =>
      obtain ⟨-, -, -, hch, hnx, -⟩ := claimRewardsFor_obs hst
      exact ⟨le_of_eq hnx.symm, fun i => Or.inl (congrFun hch i)⟩

theorem invC_runOp (s : State) (op : Op) (hI : InvC s) : InvC (runOp s op) := by
  obtain ⟨hle, hslot⟩ := chal_cases s op
  refine ⟨?_, ?_⟩
  · intro i hi
    rcases hslot i with he | ⟨h1, h2, -⟩ | ⟨h1, h2, -⟩
    · rw [he]
      exact hI.fresh i (le_trans hle hi)
    · have := hI.fresh i (le_trans hle hi)
      rw [this] at h2
      cases h2 rfl
    · omega
  · intro i hi
    rcases hslot i with he | ⟨-, -, -, h4⟩ | ⟨-, -, h3, -⟩
    · rw [he] at hi ⊢
      exact hI.resDead i hi
    · exact h4
    · rw [h3] at hi
      cases hi

/-- A resolved challenge record is frozen by every single operation. -/
theorem resolved_stable (s : State) (op : Op) (cid : Nat) (hI : InvC s)
    (hres : (s.challenges cid).resolved = true) :
    (runOp s op).challenges cid = s.challenges cid := by
  obtain ⟨hle, hslot⟩ := chal_cases s op
  rcases hslot cid with he | ⟨h1, -⟩ | ⟨h1, -⟩
  · exact he
  · rw [hres] at h1; cases h1
  · have := hI.fresh cid (le_of_eq h1.symm)
    rw [this] at hres
    cases hres

/-- A resolved challenge record is frozen by every sequence of operations. -/
theorem resolved_run (s : State) (ops : List Op) (cid : Nat) (hI : InvC s)
    (hres : (s.challenges cid).resolved = true) :
    (run s ops).challenges cid = s.challenges cid := by
  induction ops generalizing s with
  | nil => rfl
  | cons op t ih =>
    have h1 := resolved_stable s op cid hI hres
    have h2 := ih (runOp s op) (invC_runOp s op hI) (by rw [h1]; exact hres)
    rw [show run s (op :: t) = run (runOp s op) t from rfl, h2, h1]

theorem invC_run (s : State) (ops : List Op) (hI : InvC s) : InvC (run s ops) := by
  induction ops generalizing s with
  | nil => exact hI
  | cons op t ih => exact ih (runOp s op) (invC_runOp s op hI)

/-- C6: once a challenge reachable from the initial state is resolved, its
record (both the `resolved` flag and the recorded outcome) never changes
under any further sequence of operations, and any further `resolveChallenge`
or `resolveExpiredChallenge` on it fails with `ChallengeAlreadyResolved`. -/
theorem claim_C6_terminality (ops0 ops1 : List Op) (cid : Nat)
    (hres : ((run initState ops0).challenges cid).resolved = true) :
    (run (run initState ops0) ops1).challenges cid =
      (run initState ops0).challenges cid ∧
    (∀ b, resolveChallenge (run initState ops0) cid b =
      .error .ChallengeAlreadyResolved) ∧
    (∀ t, resolveExpiredChallenge (run initState ops0) cid t =
      .error .ChallengeAlreadyResolved) := by
  have hI : InvC (run initState ops0) := invC_run initState ops0 invC_initState
  have hd : ((run initState ops0).challenges cid).deadline ≠ 0 :=
    hI.resDead cid hres
  refine ⟨resolved_run _ ops1 cid hI hres, ?_, ?_⟩
  · intro b
    simp [resolveChallenge, hd, hres]
  · intro t
    simp [resolveExpiredChallenge, hd, hres]

/-- A trace ending with a resolved challenge (id 0, archiver won). -/
def c6trace : List Op :=
  [ .register 0 (10 ^ 17) "x" 1
  , .createChallenge 9 (10 ^ 16) 0 5 1
  , .resolveChallenge 0 true ]

/-- Further operations used to attack the resolved challenge of `c6trace`. -/
def c6more : List Op :=
  [ .fundRewardPool 7
  , .claimRewards 0 3
  , .createChallenge 9 (10 ^ 16) 0 6 4
  , .resolveExpiredChallenge 0 999999 ]

theorem claim_C6_witness :
    ((run initState c6trace).challenges 0).resolved = true ∧
    (run (run initState c6trace) c6more).challenges 0 =
      (run initState c6trace).challenges 0 ∧
    resolveChallenge (run initState c6trace) 0 false =
      .error .ChallengeAlreadyResolved :=
  ⟨by rfl,
   (claim_C6_terminality c6trace c6more 0 (by rfl)).1,
   (claim_C6_terminality c6trace c6more 0 (by rfl)).2.1 false⟩

end BlobArch
